import Mathlib

/-!
Verification of the Sanctum EDR sources (kernel driver, usermode engine) against
its natural-language specification.  Each Rust function named in a claim is
shallowly embedded as an executable Lean definition; machine integers appear as
`Nat` (no arithmetic in the embedded code ever overflows its Rust type on the
inputs considered), fallible code returns `Except`/`Option`, and the in-kernel
mutex-protected state is modelled by explicit state passing (the embedding is
sequential, so lock acquire/release pairs frame the critical sections and are
otherwise invisible).
-/

namespace Sanctum

/-! ## File system model for the scanner (um_engine/src/filescanner.rs)

A directory tree as `FileScanner::begin_scan` observes it: a regular file
carries its path and the uppercase-hex SHA-256 digest of its contents (the
chunked hashing loop of `scan_file_against_hashes` is abstracted to that final
digest; per-file read errors are outside the model, matching the claims, which
only distinguish readable/unreadable directories), and a directory carries
whether `fs::read_dir` succeeds on it (`readable`) and its entry list. -/

inductive FsTree where
  | file (path : String) (hash : String) : FsTree
  | dir (readable : Bool) (entries : List FsTree) : FsTree

/-- Total number of nodes below a work list of trees: the termination measure
of the `begin_scan` work-list loop. -/
def sizeL : List FsTree → Nat
  | [] => 0
  | FsTree.file _ _ :: ts => 1 + sizeL ts
  | FsTree.dir _ es :: ts => 1 + sizeL es + sizeL ts

theorem sizeL_cons_pos (t : FsTree) (ts : List FsTree) : 1 ≤ sizeL (t :: ts) := by
  cases t <;> simp [sizeL] <;> omega

theorem sizeL_append (a b : List FsTree) : sizeL (a ++ b) = sizeL a + sizeL b := by
  induction a with
  | nil => simp [sizeL]
  | cons t ts ih => cases t <;> simp [sizeL, ih] <;> omega

theorem sizeL_reverse (a : List FsTree) : sizeL a.reverse = sizeL a := by
  induction a with
  | nil => rfl
  | cons t ts ih =>
    rw [List.reverse_cons, sizeL_append, ih]
    cases t <;> simp [sizeL] <;> omega

theorem sizeL_eq_zero {ws : List FsTree} (h : sizeL ws = 0) : ws = [] := by
  cases ws with
  | nil => rfl
  | cons t ts => have := sizeL_cons_pos t ts; omega

/-- `MatchedIOC` (filescanner.rs): a positive detection. -/
structure MatchedIOC where
  hash : String
  file : String
deriving DecidableEq

/-- `ScanningLiveInfo` (filescanner.rs): progress snapshot of one scan. -/
structure ScanningLiveInfo where
  num_files_scanned : Nat
  time_taken : Nat
  scan_results : List MatchedIOC
deriving DecidableEq

/-- `ScanningLiveInfo::new()`. -/
def ScanningLiveInfo.new : ScanningLiveInfo :=
  { num_files_scanned := 0, time_taken := 0, scan_results := [] }

/-- `State` (filescanner.rs): the scanner state machine. -/
inductive State where
  | Scanning (sli : ScanningLiveInfo)
  | Finished (sli : ScanningLiveInfo)
  | FinishedWithError (msg : String)
  | Inactive
  | Cancelled
deriving DecidableEq

/-- Accumulator of one `begin_scan` directory walk: `results` is
`scanning_info.scan_results`, `timeInserts` counts the `time_map.insert`
calls (the timing map is non-empty iff at least one insert happened, which is
all `begin_scan` observes of it through `next()/next_back()`), and `hashed`
is the instrumentation trace of the files passed to
`scan_file_against_hashes`, in call order. -/
structure ScanAcc where
  hashed : List (String × String)
  timeInserts : Nat
  results : List MatchedIOC
deriving DecidableEq

/-- `FileScanner::scan_file_against_hashes` on a file with digest `h`: the
per-chunk cancellation check aborts with the user-cancelled error, otherwise
the digest is looked up in the IOC `BTreeSet`. -/
def scan_file_against_hashes (cancelled : Bool) (iocs : List String)
    (path hash : String) : Except String (Option (String × String)) :=
  if cancelled then Except.error "User cancelled scan."
  else if hash ∈ iocs then Except.ok (some (hash, path))
  else Except.ok none

/-- The body of the `for entry in read_dir` loop of `begin_scan`: per entry,
the cancellation check runs first; a subdirectory is pushed onto
`discovered_dirs` (`ws`, kept with the `Vec` top at the list head); a file is
hashed, a match is appended to the results, and a timing entry is inserted. -/
def processEntries (cancelled : Bool) (iocs : List String) :
    List FsTree → List FsTree → ScanAcc → List FsTree × ScanAcc × Option String
  | [], ws, acc => (ws, acc, none)
  | e :: es, ws, acc =>
    if cancelled then (ws, acc, some "User cancelled scan.")
    else
      match e with
      | FsTree.dir rd sub => processEntries cancelled iocs es (FsTree.dir rd sub :: ws) acc
      | FsTree.file p h =>
          processEntries cancelled iocs es ws
            { hashed := acc.hashed ++ [(p, h)],
              timeInserts := acc.timeInserts + 1,
              results := acc.results ++ (if h ∈ iocs then [⟨h, p⟩] else []) }

theorem processEntries_ws_size (c : Bool) (iocs : List String)
    (es : List FsTree) : ∀ ws acc,
    sizeL (processEntries c iocs es ws acc).1 ≤ sizeL es + sizeL ws := by
  induction es with
  | nil => intro ws acc; simp [processEntries]
  | cons e es ih =>
    intro ws acc
    cases c with
    | true =>
      simp only [processEntries, if_true]
      have h1 := sizeL_cons_pos e es
      omega
    | false =>
      cases e with
      | dir rd sub =>
        have h2 := ih (FsTree.dir rd sub :: ws) acc
        simp only [processEntries, Bool.false_eq_true, if_false] at h2 ⊢
        simp [sizeL] at h2 ⊢
        omega
      | file p h =>
        have h2 := ih ws
          { hashed := acc.hashed ++ [(p, h)],
            timeInserts := acc.timeInserts + 1,
            results := acc.results ++ (if h ∈ iocs then [⟨h, p⟩] else []) }
        simp only [processEntries, Bool.false_eq_true, if_false] at h2 ⊢
        simp [sizeL] at h2 ⊢
        omega

/-- The `while !discovered_dirs.is_empty()` loop of `begin_scan`: pop a
directory (the head models the `Vec` top), skip it when `fs::read_dir` fails
(a file path, or an unreadable directory), otherwise run the entry loop and
continue with the updated work list. -/
def scanLoop : Bool → List String → List FsTree → ScanAcc → ScanAcc × Option String
  | _, _, [], acc => (acc, none)
  | c, iocs, FsTree.file _ _ :: rest, acc => scanLoop c iocs rest acc
  | c, iocs, FsTree.dir false _ :: rest, acc => scanLoop c iocs rest acc
  | c, iocs, FsTree.dir true entries :: rest, acc =>
      match hpe : processEntries c iocs entries rest acc with
      | (_, acc2, some e) => (acc2, some e)
      | (ws2, acc2, none) => scanLoop c iocs ws2 acc2
termination_by _ _ ws _ => sizeL ws
decreasing_by
  all_goals first
  | (simp only [sizeL]; omega)
  | (have hb := processEntries_ws_size c iocs entries rest acc
     rw [hpe] at hb
     simp only [sizeL] at hb ⊢
     omega)

/-! ## Reachability, following the specification's words

The specification states that `begin_scan` "visits every regular file
reachable through readable subdirectories regardless of nesting depth".
`reachableList es` collects the files a traversal may reach from the entry
list `es` of a readable directory; `reachableFiles` applies it to a tree. -/

/-- Files reachable from the entries of a readable directory (spec wording
for the comparison with the embedded traversal). -/
def reachableList : List FsTree → List (String × String)
  | [] => []
  | FsTree.file p h :: es => (p, h) :: reachableList es
  | FsTree.dir false _ :: es => reachableList es
  | FsTree.dir true sub :: es => reachableList sub ++ reachableList es
termination_by es => sizeL es
decreasing_by
  all_goals simp only [sizeL]
  all_goals omega

/-- Files reachable from a scan target through readable directories. -/
def reachableFiles : FsTree → List (String × String)
  | FsTree.file _ _ => []
  | FsTree.dir false _ => []
  | FsTree.dir true es => reachableList es

/-- The file entries of a directory's entry list, in order. -/
def filesOf : List FsTree → List (String × String)
  | [] => []
  | FsTree.file p h :: es => (p, h) :: filesOf es
  | FsTree.dir _ _ :: es => filesOf es

/-- The directory entries of a directory's entry list, in order. -/
def dirsOf : List FsTree → List FsTree
  | [] => []
  | FsTree.file _ _ :: es => dirsOf es
  | FsTree.dir rd sub :: es => FsTree.dir rd sub :: dirsOf es

/-- The IOC matches among a directory's immediate file entries, in order. -/
def matchedOf (iocs : List String) : List FsTree → List MatchedIOC
  | [] => []
  | FsTree.file p h :: es => (if h ∈ iocs then [⟨h, p⟩] else []) ++ matchedOf iocs es
  | FsTree.dir _ _ :: es => matchedOf iocs es

@[simp] theorem reachableFiles_file (p h : String) :
    reachableFiles (FsTree.file p h) = [] := rfl
@[simp] theorem reachableFiles_dir_unreadable (es : List FsTree) :
    reachableFiles (FsTree.dir false es) = [] := rfl
@[simp] theorem reachableFiles_dir_readable (es : List FsTree) :
    reachableFiles (FsTree.dir true es) = reachableList es := rfl

theorem mem_reachableList (x : String × String) (es : List FsTree) :
    x ∈ reachableList es ↔
      x ∈ filesOf es ∨ ∃ d, d ∈ dirsOf es ∧ x ∈ reachableFiles d := by
  induction es with
  | nil => simp [reachableList, filesOf, dirsOf]
  | cons e es ih =>
    cases e with
    | file p h =>
      simp only [reachableList, filesOf, dirsOf, List.mem_cons, ih]
      tauto
    | dir rd sub =>
      cases rd with
      | false =>
        simp only [reachableList, filesOf, dirsOf, List.mem_cons, ih]
        constructor
        · rintro (hx | ⟨d, hd, hxd⟩)
          · exact Or.inl hx
          · exact Or.inr ⟨d, Or.inr hd, hxd⟩
        · rintro (hx | ⟨d, (rfl | hd), hxd⟩)
          · exact Or.inl hx
          · simp at hxd
          · exact Or.inr ⟨d, hd, hxd⟩
      | true =>
        simp only [reachableList, filesOf, dirsOf, List.mem_cons, List.mem_append, ih]
        constructor
        · rintro (hx | hx | ⟨d, hd, hxd⟩)
          · exact Or.inr ⟨FsTree.dir true sub, Or.inl rfl, by simpa using hx⟩
          · exact Or.inl hx
          · exact Or.inr ⟨d, Or.inr hd, hxd⟩
        · rintro (hx | ⟨d, (rfl | hd), hxd⟩)
          · exact Or.inr (Or.inl hx)
          · exact Or.inl (by simpa using hxd)
          · exact Or.inr (Or.inr ⟨d, hd, hxd⟩)

/-- Exact characterization of the entry loop when the scan is not cancelled:
no error, the file entries are hashed in order (one timing insert each, the
matches appended), and the subdirectories are pushed onto the work list. -/
theorem processEntries_false_spec (iocs : List String) (es : List FsTree) :
    ∀ ws acc, processEntries false iocs es ws acc =
      ((dirsOf es).reverse ++ ws,
       { hashed := acc.hashed ++ filesOf es,
         timeInserts := acc.timeInserts + (filesOf es).length,
         results := acc.results ++ matchedOf iocs es },
       none) := by
  induction es with
  | nil => intro ws acc; simp [processEntries, dirsOf, filesOf, matchedOf]
  | cons e es ih =>
    intro ws acc
    cases e with
    | dir rd sub =>
      simp only [processEntries, Bool.false_eq_true, if_false]
      rw [ih]
      simp [dirsOf, filesOf, matchedOf, List.reverse_cons, List.append_assoc]
    | file p h =>
      simp only [processEntries, Bool.false_eq_true, if_false]
      rw [ih]
      simp only [dirsOf, filesOf, matchedOf]
      refine congrArg (fun a => ((dirsOf es).reverse ++ ws, a, none)) ?_
      simp [List.append_assoc]
      omega

theorem sizeL_dirsOf_le (es : List FsTree) : sizeL (dirsOf es) ≤ sizeL es := by
  induction es with
  | nil => simp [dirsOf]
  | cons e es ih =>
    cases e with
    | file p h => simp only [dirsOf, sizeL]; omega
    | dir rd sub => simp only [dirsOf, sizeL]; omega

/-- Master lemma about the un-cancelled work-list loop: it never fails, it
hashes exactly the files reachable through readable directories from the
work-list items, and it performs one timing-map insert per hashed file. -/
theorem scanLoop_false_spec (iocs : List String) :
    ∀ (n : Nat) (ws : List FsTree) (acc : ScanAcc), sizeL ws ≤ n →
    ∃ L res2, scanLoop false iocs ws acc =
        ({ hashed := acc.hashed ++ L,
           timeInserts := acc.timeInserts + L.length,
           results := res2 }, none) ∧
      ∀ x, x ∈ L ↔ ∃ w, w ∈ ws ∧ x ∈ reachableFiles w := by
  intro n
  induction n with
  | zero =>
    intro ws acc hsz
    have hws : ws = [] := sizeL_eq_zero (Nat.le_zero.mp hsz)
    subst hws
    exact ⟨[], acc.results, by simp [scanLoop], by simp⟩
  | succ n ih =>
    intro ws acc hsz
    match ws with
    | [] =>
      exact ⟨[], acc.results, by simp [scanLoop], by simp⟩
    | FsTree.file p h :: rest =>
      have hr : sizeL rest ≤ n := by simp only [sizeL] at hsz; omega
      obtain ⟨L, res2, heq, hmem⟩ := ih rest acc hr
      refine ⟨L, res2, by rw [scanLoop]; exact heq, ?_⟩
      intro x
      rw [hmem]
      constructor
      · rintro ⟨w, hw, hxw⟩; exact ⟨w, List.mem_cons_of_mem _ hw, hxw⟩
      · rintro ⟨w, hw, hxw⟩
        rcases List.mem_cons.mp hw with rfl | hw
        · simp at hxw
        · exact ⟨w, hw, hxw⟩
    | FsTree.dir false sub :: rest =>
      have hr : sizeL rest ≤ n := by simp only [sizeL] at hsz; omega
      obtain ⟨L, res2, heq, hmem⟩ := ih rest acc hr
      refine ⟨L, res2, by rw [scanLoop]; exact heq, ?_⟩
      intro x
      rw [hmem]
      constructor
      · rintro ⟨w, hw, hxw⟩; exact ⟨w, List.mem_cons_of_mem _ hw, hxw⟩
      · rintro ⟨w, hw, hxw⟩
        rcases List.mem_cons.mp hw with rfl | hw
        · simp at hxw
        · exact ⟨w, hw, hxw⟩
    | FsTree.dir true entries :: rest =>
      have hws2 : sizeL ((dirsOf entries).reverse ++ rest) ≤ n := by
        have h1 := sizeL_dirsOf_le entries
        rw [sizeL_append, sizeL_reverse]
        simp only [sizeL] at hsz
        omega
      obtain ⟨L2, res2, heq2, hmem2⟩ := ih ((dirsOf entries).reverse ++ rest)
        { hashed := acc.hashed ++ filesOf entries,
          timeInserts := acc.timeInserts + (filesOf entries).length,
          results := acc.results ++ matchedOf iocs entries } hws2
      refine ⟨filesOf entries ++ L2, res2, ?_, ?_⟩
      · rw [scanLoop]
        rw [processEntries_false_spec]
        simp only []
        rw [heq2]
        simp [List.append_assoc, List.length_append]
        omega
      · intro x
        rw [List.mem_append, hmem2]
        constructor
        · rintro (hx | ⟨w, hw, hxw⟩)
          · refine ⟨FsTree.dir true entries, List.mem_cons_self _ _, ?_⟩
            rw [reachableFiles_dir_readable, mem_reachableList]
            exact Or.inl hx
          · rcases List.mem_append.mp hw with hw | hw
            · refine ⟨FsTree.dir true entries, List.mem_cons_self _ _, ?_⟩
              rw [reachableFiles_dir_readable, mem_reachableList]
              exact Or.inr ⟨w, List.mem_reverse.mp hw, hxw⟩
            · exact ⟨w, List.mem_cons_of_mem _ hw, hxw⟩
        · rintro ⟨w, hw, hxw⟩
          rcases List.mem_cons.mp hw with rfl | hw
          · rw [reachableFiles_dir_readable, mem_reachableList] at hxw
            rcases hxw with hx | ⟨d, hd, hxd⟩
            · exact Or.inl hx
            · exact Or.inr ⟨d, List.mem_append.mpr
                (Or.inl (List.mem_reverse.mpr hd)), hxd⟩
          · exact Or.inr ⟨w, List.mem_append.mpr (Or.inr hw), hxw⟩

/-- Outcome of one `begin_scan` call: `ok` is the `Ok(State)` return value,
`ioError` the `Err(io::Error)` return value, and `panicked` the `unwrap()`
panic on `time_map.iter().next()` / `next_back()` when the timing map is
empty. -/
inductive ScanOutcome where
  | ok (s : State)
  | ioError (msg : String)
  | panicked
deriving DecidableEq

/-- `FileScanner::begin_scan`, instrumented with the trace of files passed to
`scan_file_against_hashes`.  A non-directory target is hashed directly and
wrapped in `Finished`; a directory target runs the work-list walk and then
computes min/max of the timing map, panicking when the map is empty. -/
def begin_scan_traced (cancelled : Bool) (iocs : List String) (target : FsTree) :
    ScanOutcome × List (String × String) :=
  match target with
  | FsTree.file p h =>
    match scan_file_against_hashes cancelled iocs p h with
    | Except.error e => (ScanOutcome.ioError e, [])
    | Except.ok (some (hh, pp)) =>
        (ScanOutcome.ok (State.Finished
          { num_files_scanned := 0, time_taken := 0,
            scan_results := [{ hash := hh, file := pp }] }), [(p, h)])
    | Except.ok none =>
        (ScanOutcome.ok (State.Finished
          { num_files_scanned := 0, time_taken := 0, scan_results := [] }), [(p, h)])
  | FsTree.dir rd es =>
    match scanLoop cancelled iocs [FsTree.dir rd es]
        { hashed := [], timeInserts := 0, results := [] } with
    | (acc, some e) => (ScanOutcome.ioError e, acc.hashed)
    | (acc, none) =>
      if acc.timeInserts = 0 then (ScanOutcome.panicked, acc.hashed)
      else
        (ScanOutcome.ok (State.Finished
          { num_files_scanned := 0, time_taken := 0, scan_results := acc.results }),
         acc.hashed)

/-- `FileScanner::begin_scan` (outcome only). -/
def begin_scan (cancelled : Bool) (iocs : List String) (target : FsTree) :
    ScanOutcome :=
  (begin_scan_traced cancelled iocs target).1

/-- The un-cancelled `begin_scan` on a directory target, in terms of the
master loop lemma: the trace is exactly the reachable files, and the outcome
is `Finished` when the trace is non-empty and a panic when it is empty. -/
theorem begin_scan_traced_dir (iocs : List String) (rd : Bool) (es : List FsTree) :
    ∃ L res2,
      (∀ x, x ∈ L ↔ x ∈ reachableFiles (FsTree.dir rd es)) ∧
      begin_scan_traced false iocs (FsTree.dir rd es) =
        (if L.length = 0 then ScanOutcome.panicked
         else ScanOutcome.ok (State.Finished
           { num_files_scanned := 0, time_taken := 0, scan_results := res2 }), L) := by
  obtain ⟨L, res2, heq, hmem⟩ := scanLoop_false_spec iocs
    (sizeL [FsTree.dir rd es]) [FsTree.dir rd es]
    { hashed := [], timeInserts := 0, results := [] } (Nat.le_refl _)
  refine ⟨L, res2, ?_, ?_⟩
  · intro x
    rw [hmem]
    constructor
    · rintro ⟨w, hw, hxw⟩
      rcases List.mem_cons.mp hw with rfl | hw
      · exact hxw
      · simp at hw
    · intro hx
      exact ⟨FsTree.dir rd es, List.mem_cons_self _ _, hx⟩
  · rw [begin_scan_traced]
    rw [heq]
    simp only [List.nil_append, Nat.zero_add]
    split
    · rfl
    · rfl

/-! ## Scanner state machine (filescanner.rs) and engine entry point -/

/-- `FileScanner::is_scanning`. -/
def is_scanning : State → Bool
  | State.Scanning _ => true
  | State.Finished _ => false
  | State.FinishedWithError _ => false
  | State.Inactive => false
  | State.Cancelled => false

/-- `FileScanner::cancel_scan`: under the state lock, return `None` when the
state is `Cancelled` or `Inactive`; otherwise, when the state is
`Scanning(sli)`, move to `Cancelled` and return the snapshot; in every other
case return `None` with the state unchanged. -/
def cancel_scan (s : State) : Option ScanningLiveInfo × State :=
  if s = State.Cancelled ∨ s = State.Inactive then (none, s)
  else
    match s with
    | State.Scanning sli => (some sli, State.Cancelled)
    | _ => (none, s)

/-- `FileScanner::scan_started`. -/
def scan_started (_s : State) : State :=
  State.Scanning ScanningLiveInfo.new

/-- `FileScanner::end_scan`. -/
def end_scan (_s : State) : State :=
  State.Inactive

/-- Modelled from the spec: the `FileScannerState` enum of the
`shared_std::file_scanner` module, whose declaration is not among the
sources (only its uses are).  Per the specification's data model it mirrors
the scanner's state machine; the `Scanning` admission answer is returned
bare at every use site in the sources, so that variant carries no payload
here. -/
inductive FileScannerState where
  | Scanning
  | Finished (sli : ScanningLiveInfo)
  | FinishedWithError (msg : String)
  | Inactive
  | Cancelled
deriving DecidableEq

/-- Conversion of a scanner `State` into the wire-facing answer, used for the
`Ok(state)` pass-through of `scanner_start_scan`. -/
def stateToAnswer : State → FileScannerState
  | State.Scanning _ => FileScannerState.Scanning
  | State.Finished sli => FileScannerState.Finished sli
  | State.FinishedWithError m => FileScannerState.FinishedWithError m
  | State.Inactive => FileScannerState.Inactive
  | State.Cancelled => FileScannerState.Cancelled

/-- `UsermodeAPI::scanner_start_scan` (identical in `UmEngine`): if a scan is
already active, answer `FileScannerState::Scanning` at once; otherwise mark
the scan started, run `begin_scan`, mark it ended, and translate the result
(`Err` becomes `FinishedWithError`).  The returned triple is the answer, the
scanner state after the call, and the trace of files hashed during the call;
`none` models a propagated `begin_scan` panic.  In this sequential embedding
the state installed by `scan_started` is `Scanning`, so every cancellation
check inside `begin_scan` observes a non-`Cancelled` state. -/
def scanner_start_scan (iocs : List String) (s : State) (target : FsTree) :
    Option (FileScannerState × State × List (String × String)) :=
  if is_scanning s then some (FileScannerState.Scanning, s, [])
  else
    let s1 := scan_started s
    let traced := begin_scan_traced (decide (s1 = State.Cancelled)) iocs target
    let s2 := end_scan s1
    match traced with
    | (ScanOutcome.ok st, tr) => some (stateToAnswer st, s2, tr)
    | (ScanOutcome.ioError e, tr) => some (FileScannerState.FinishedWithError e, s2, tr)
    | (ScanOutcome.panicked, _) => none

/-! ## Process monitor (um_engine/src/core/process_monitor.rs) -/

/-- `ProcessStarted` (shared_no_std/src/driver_ipc.rs). -/
structure ProcessStarted where
  image_name : String
  command_line : String
  parent_pid : Nat
  pid : Nat
deriving DecidableEq

/-- `ProcessTerminated` (shared_no_std/src/driver_ipc.rs). -/
structure ProcessTerminated where
  pid : Nat
deriving DecidableEq

/-- `Process` (process_monitor.rs): one tracked live process. -/
structure Process where
  pid : Nat
  process_image : String
  commandline_args : String
  risk_score : Nat
  allow_listed : Bool
  sanctum_protected_process : Bool
deriving DecidableEq

/-- `ProcessErrors` (process_monitor.rs). -/
inductive ProcessErrors where
  | PidNotFound
  | DuplicatePid
deriving DecidableEq

/-- `ProcessMonitor` (process_monitor.rs): the `HashMap<u64, Process>` is
modelled as an association list (keys are kept unique by `insert`). -/
structure ProcessMonitor where
  processes : List (Nat × Process)
deriving DecidableEq

/-- `HashMap::get` on the process table. -/
def lookup_pid (m : ProcessMonitor) (pid : Nat) : Option Process :=
  (m.processes.find? (fun kv => kv.1 == pid)).map (fun kv => kv.2)

/-- The `Process` record built by `ProcessMonitor::insert` from an event. -/
def processFromEvent (proc : ProcessStarted) : Process :=
  { pid := proc.pid, process_image := proc.image_name,
    commandline_args := proc.command_line, risk_score := 0,
    allow_listed := false, sanctum_protected_process := false }

/-- `ProcessMonitor::insert`: reject a duplicate pid with `DuplicatePid`
without touching the table, otherwise add the new entry. -/
def ProcessMonitor.insert (m : ProcessMonitor) (proc : ProcessStarted) :
    ProcessMonitor × Option ProcessErrors :=
  if (lookup_pid m proc.pid).isSome then (m, some ProcessErrors.DuplicatePid)
  else ({ processes := (proc.pid, processFromEvent proc) :: m.processes }, none)

/-- `ProcessMonitor::remove_process`: unconditional removal by pid. -/
def remove_process (m : ProcessMonitor) (pid : Nat) : ProcessMonitor :=
  { processes := m.processes.filter (fun kv => ¬ kv.1 = pid) }

/-! ## Shared wire batch and the core polling loop (core/core.rs) -/

/-- `DriverMessages` (shared wire DTO; its declaration sits in the
`shared_no_std::ioctl` module of which the sources hold an earlier revision,
so the fields follow the specification's data-model table, which matches
every use in driver/src/device_comms.rs). -/
structure DriverMessages where
  messages : List String
  process_creations : List ProcessStarted
  process_terminations : List ProcessTerminated
deriving DecidableEq

/-- `DriverMessages::default()`. -/
def DriverMessages.default : DriverMessages :=
  { messages := [], process_creations := [], process_terminations := [] }

/-- The batch-processing section of `Core::start_core`'s loop body (the
`if driver_response.is_some()` block): every `ProcessTerminated` in the
batch is removed, then every `ProcessStarted` is inserted (a failed insert
is only logged). -/
def core_process_batch (processes : ProcessMonitor) (driver_messages : DriverMessages) :
    ProcessMonitor :=
  let afterTerms :=
    if driver_messages.process_terminations.isEmpty then processes
    else driver_messages.process_terminations.foldl
      (fun acc t => remove_process acc t.pid) processes
  if driver_messages.process_creations.isEmpty then afterTerms
  else driver_messages.process_creations.foldl
    (fun acc p => (ProcessMonitor.insert acc p).1) afterTerms

/-- Spec wording: apply all terminations of a batch. -/
def apply_terminations (m : ProcessMonitor) (ts : List ProcessTerminated) :
    ProcessMonitor :=
  ts.foldl (fun acc t => remove_process acc t.pid) m

/-- Spec wording: apply all creations of a batch. -/
def apply_creations (m : ProcessMonitor) (cs : List ProcessStarted) :
    ProcessMonitor :=
  cs.foldl (fun acc p => (ProcessMonitor.insert acc p).1) m

/-- `Core { driver_poll_rate: 50 }` (core/core.rs). -/
def driver_poll_rate : Nat := 50

/-- One pass of the infinite polling loop of `Core::start_core`: drain the
driver's queue through the driver manager, apply the batch if one arrived,
then sleep `driver_poll_rate` milliseconds (the second component). -/
def core_iteration (processes : ProcessMonitor)
    (driver_response : Option DriverMessages) : ProcessMonitor × Nat :=
  match driver_response with
  | some driver_messages => (core_process_batch processes driver_messages, driver_poll_rate)
  | none => (processes, driver_poll_rate)

/-- The polling loop never exits: the table state before iteration `n`, for
an arbitrary stream of poll responses, is defined for every `n`. -/
def core_run (responses : Nat → Option DriverMessages)
    (m0 : ProcessMonitor) : Nat → ProcessMonitor
  | 0 => m0
  | n + 1 => (core_iteration (core_run responses m0 n) (responses n)).1

/-! ## Driver version gate (driver/src/utils.rs) -/

/-- `SanctumVersion` (shared constants): a major.minor.patch triple. -/
structure SanctumVersion where
  major : Nat
  minor : Nat
  patch : Nat
deriving DecidableEq

/-- `check_driver_version` (driver/src/utils.rs): only client versions with
`major < 1` are compatible. -/
def check_driver_version (client_version : SanctumVersion) : Bool :=
  if client_version.major ≥ 1 then false
  else true

/-- `DriverError` (driver/src/utils.rs). -/
inductive DriverError where
  | NullPtr
  | DriverMessagePtrNull
  | LengthTooLarge
  | CouldNotDecodeUnicode
  | CouldNotEncodeUnicode
  | CouldNotSerialize
  | NoDataToSend
  | Unknown (msg : String)
deriving DecidableEq

/-! ## In-kernel message queue (driver/src/device_comms.rs)

`DriverMessagesWithMutex` wraps a fast mutex, an `is_empty` flag and the
`DriverMessages` payload.  The mutex itself is invisible in this sequential
embedding; the IRQL checks that guard its acquisition are kept, with the
current IRQL passed explicitly (`PASSIVE_LEVEL = 0`, `APC_LEVEL = 1`). -/

def PASSIVE_LEVEL : Nat := 0
def APC_LEVEL : Nat := 1

structure DriverMessagesWithMutex where
  is_empty : Bool
  data : DriverMessages
deriving DecidableEq

/-- `DriverMessagesWithMutex::new()` / `default()`. -/
def DriverMessagesWithMutex.new : DriverMessagesWithMutex :=
  { is_empty := true, data := DriverMessages.default }

/-- `add_message_to_queue`: drop the message unless the IRQL gate passes. -/
def add_message_to_queue (irql : Nat) (q : DriverMessagesWithMutex)
    (data : String) : DriverMessagesWithMutex :=
  if irql ≠ 0 then q
  else if irql > APC_LEVEL then q
  else { is_empty := false,
         data := { q.data with messages := q.data.messages ++ [data] } }

/-- `add_process_creation_to_queue`: drop the event unless the IRQL gate
(checked before and after acquiring the fast mutex) passes. -/
def add_process_creation_to_queue (irql : Nat) (q : DriverMessagesWithMutex)
    (data : ProcessStarted) : DriverMessagesWithMutex :=
  if irql ≠ 0 then q
  else if irql > APC_LEVEL then q
  else { is_empty := false,
         data := { q.data with
                   process_creations := q.data.process_creations ++ [data] } }

/-- `add_process_termination_to_queue`, same gating. -/
def add_process_termination_to_queue (irql : Nat) (q : DriverMessagesWithMutex)
    (data : ProcessTerminated) : DriverMessagesWithMutex :=
  if irql ≠ 0 then q
  else if irql > APC_LEVEL then q
  else { is_empty := false,
         data := { q.data with
                   process_terminations := q.data.process_terminations ++ [data] } }

/-- `extract_all`: under the same IRQL gating, return `None` when the queue
is empty, otherwise `mem::take` the payload (leaving the default), reset the
empty flag, and return the extracted batch. -/
def extract_all (irql : Nat) (q : DriverMessagesWithMutex) :
    Option DriverMessages × DriverMessagesWithMutex :=
  if irql ≠ 0 then (none, q)
  else if irql > APC_LEVEL then (none, q)
  else if q.is_empty then (none, q)
  else (some q.data, { is_empty := true, data := DriverMessages.default })

/-- `add_existing_queue` (used on the `DriverMessagesCache` singleton, whose
declaration is held in a newer revision of device_comms.rs than the sources;
its behaviour is this method, shown in the sources): append the three inner
lists of the drained batch and return the JSON byte length of the merged
result.  Serialization is the explicit parameter `ser`. -/
def add_existing_queue (ser : DriverMessages → List Nat)
    (cache : DriverMessagesWithMutex) (q : DriverMessages) :
    DriverMessagesWithMutex × Nat :=
  let merged : DriverMessages :=
    { messages := cache.data.messages ++ q.messages,
      process_creations := cache.data.process_creations ++ q.process_creations,
      process_terminations := cache.data.process_terminations ++ q.process_terminations }
  ({ is_empty := false, data := merged }, (ser merged).length)

/-! ## IOCTL protocol (shared_no_std/src/ioctl.rs and driver/src/lib.rs) -/

def FILE_DEVICE_UNKNOWN : Nat := 34
def METHOD_BUFFERED : Nat := 0
def FILE_ANY_ACCESS : Nat := 0

/-- The `CTL_CODE!` macro. -/
def CTL_CODE (deviceType function method access : Nat) : Nat :=
  (deviceType <<< 16) ||| (access <<< 14) ||| (function <<< 2) ||| method

def SANC_IOCTL_PING : Nat :=
  CTL_CODE FILE_DEVICE_UNKNOWN 0x800 METHOD_BUFFERED FILE_ANY_ACCESS
def SANC_IOCTL_PING_WITH_STRUCT : Nat :=
  CTL_CODE FILE_DEVICE_UNKNOWN 0x801 METHOD_BUFFERED FILE_ANY_ACCESS
def SANC_IOCTL_CHECK_COMPATIBILITY : Nat :=
  CTL_CODE FILE_DEVICE_UNKNOWN 0x802 METHOD_BUFFERED FILE_ANY_ACCESS
/-- Modelled from the spec: the message-length selector is not among the
excerpted constant definitions; the spec assigns the next unused selector
`0x803` in the same scheme. -/
def SANC_IOCTL_DRIVER_GET_MESSAGE_LEN : Nat :=
  CTL_CODE FILE_DEVICE_UNKNOWN 0x803 METHOD_BUFFERED FILE_ANY_ACCESS
/-- Modelled from the spec: the message-retrieval selector is not among the
excerpted constant definitions; the spec assigns `0x804`. -/
def SANC_IOCTL_DRIVER_GET_MESSAGES : Nat :=
  CTL_CODE FILE_DEVICE_UNKNOWN 0x804 METHOD_BUFFERED FILE_ANY_ACCESS

/-- NT status codes (as i32 values). -/
def STATUS_SUCCESS : Int := 0
def STATUS_UNSUCCESSFUL : Int := -1073741823

/-- The two kernel singletons reachable from the IOCTL handlers:
`DRIVER_MESSAGES` (live queue) and `DRIVER_MESSAGES_CACHE`.  Both pointers
are non-null for the whole driver lifetime modelled here, so the null-check
error paths of the handlers never fire. -/
structure KernelState where
  queue : DriverMessagesWithMutex
  cache : DriverMessagesWithMutex
deriving DecidableEq

/-- Data written back through the system buffer by an IOCTL handler. -/
inductive IoctlOutput where
  | msgLen (n : Nat)
  | bytes (bs : List Nat)
  | strOut (s : String)
  | boolOut (b : Bool)
deriving DecidableEq

/-- `ioctl_handler_get_kernel_msg_len` (device_comms.rs): drain the live
queue, merge it into the cache, and write back the serialized byte length of
the merged cache; an empty queue or a zero length is `NoDataToSend`. -/
def ioctl_handler_get_kernel_msg_len (ser : DriverMessages → List Nat)
    (irql : Nat) (ks : KernelState) :
    Except DriverError IoctlOutput × KernelState :=
  match extract_all irql ks.queue with
  | (none, q2) => (Except.error DriverError.NoDataToSend, { ks with queue := q2 })
  | (some drained, q2) =>
    let merged := add_existing_queue ser ks.cache drained
    if merged.2 = 0 then
      (Except.error DriverError.NoDataToSend, { queue := q2, cache := merged.1 })
    else
      (Except.ok (IoctlOutput.msgLen merged.2), { queue := q2, cache := merged.1 })

/-- `ioctl_handler_send_kernel_msgs_to_userland` (device_comms.rs): take
everything out of the cache, serialize it to JSON, and write the bytes back;
an empty cache is `NoDataToSend`. -/
def ioctl_handler_send_kernel_msgs_to_userland (ser : DriverMessages → List Nat)
    (irql : Nat) (ks : KernelState) :
    Except DriverError IoctlOutput × KernelState :=
  match extract_all irql ks.cache with
  | (none, c2) => (Except.error DriverError.NoDataToSend, { ks with cache := c2 })
  | (some data, c2) => (Except.ok (IoctlOutput.bytes (ser data)), { ks with cache := c2 })

/-- Input payload of one IOCTL request (the typed view the handlers take of
the validated system buffer). -/
inductive IoctlInput where
  | rawStr (s : String)
  | ver (v : SanctumVersion)
  | emptyBuf
deriving DecidableEq

/-- Result of one pass through `handle_ioctl`: the NTSTATUS returned to the
I/O manager, the data placed in the output buffer (`none` when the buffer is
not written), and the kernel state afterwards. -/
structure IoctlResponse where
  status : Int
  output : Option IoctlOutput
  ks : KernelState
deriving DecidableEq

/-- `handle_ioctl` (driver/src/lib.rs): decode the control code and dispatch.
The `SANC_IOCTL_DRIVER_GET_MESSAGES` arm reproduces the source exactly: the
call to `ioctl_handler_send_kernel_msgs_to_userland` is commented out there,
so the arm completes with `STATUS_SUCCESS` without touching the cache or the
output buffer.  Unknown codes fail with `STATUS_UNSUCCESSFUL`. -/
def handle_ioctl (ser : DriverMessages → List Nat) (control_code : Nat)
    (irql : Nat) (input : IoctlInput) (ks : KernelState) : IoctlResponse :=
  if control_code = SANC_IOCTL_PING then
    match input with
    | IoctlInput.rawStr s =>
        if s.isEmpty then { status := STATUS_UNSUCCESSFUL, output := none, ks := ks }
        else { status := STATUS_SUCCESS, output := some (IoctlOutput.strOut "Msg received!"), ks := ks }
    | _ => { status := STATUS_UNSUCCESSFUL, output := none, ks := ks }
  else if control_code = SANC_IOCTL_PING_WITH_STRUCT then
    match input with
    | IoctlInput.rawStr _ =>
        { status := STATUS_SUCCESS,
          output := some (IoctlOutput.strOut "Msg received from the Kernel!"), ks := ks }
    | _ => { status := STATUS_UNSUCCESSFUL, output := none, ks := ks }
  else if control_code = SANC_IOCTL_CHECK_COMPATIBILITY then
    match input with
    | IoctlInput.ver v =>
        { status := STATUS_SUCCESS,
          output := some (IoctlOutput.boolOut (check_driver_version v)), ks := ks }
    | _ => { status := STATUS_UNSUCCESSFUL, output := none, ks := ks }
  else if control_code = SANC_IOCTL_DRIVER_GET_MESSAGE_LEN then
    match ioctl_handler_get_kernel_msg_len ser irql ks with
    | (Except.ok out, ks2) => { status := STATUS_SUCCESS, output := some out, ks := ks2 }
    | (Except.error _, ks2) => { status := STATUS_UNSUCCESSFUL, output := none, ks := ks2 }
  else if control_code = SANC_IOCTL_DRIVER_GET_MESSAGES then
    { status := STATUS_SUCCESS, output := none, ks := ks }
  else
    { status := STATUS_UNSUCCESSFUL, output := none, ks := ks }

/-! ## Claim theorems -/

/-- C3: the driver's version-compatibility check reports a client
`SanctumVersion` compatible if and only if its `major` field is strictly
less than 1, and the `minor` and `patch` fields have no effect on the
verdict, for all values of minor and patch. -/
theorem claim_c3_version_gate :
    ∀ v : SanctumVersion,
      (check_driver_version v = true ↔ v.major < 1) ∧
      ∀ minor2 patch2 : Nat,
        check_driver_version { major := v.major, minor := minor2, patch := patch2 } =
          check_driver_version v := by
  intro v
  constructor
  · simp only [check_driver_version]
    by_cases h : v.major ≥ 1
    · simp [h]; omega
    · simp [h]; omega
  · intro minor2 patch2
    rfl

/-- C5: `cancel_scan` on `Scanning(sli)` moves to `Cancelled` and returns the
snapshot `sli`; on `Inactive` it returns nothing and leaves the state
unchanged; and on any state that is not `Scanning` it is a no-op returning
nothing. -/
theorem claim_c5_cancel_scan :
    (∀ sli, cancel_scan (State.Scanning sli) = (some sli, State.Cancelled)) ∧
    cancel_scan State.Inactive = (none, State.Inactive) ∧
    (∀ s : State, (∀ sli, s ≠ State.Scanning sli) → cancel_scan s = (none, s)) := by
  refine ⟨?_, ?_, ?_⟩
  · intro sli
    simp [cancel_scan]
  · simp [cancel_scan]
  · intro s hs
    cases s with
    | Scanning sli => exact absurd rfl (hs sli)
    | Finished sli => simp [cancel_scan]
    | FinishedWithError m => simp [cancel_scan]
    | Inactive => simp [cancel_scan]
    | Cancelled => simp [cancel_scan]

/-- Witness for C5 at concrete states: one `Scanning`, the `Inactive` case,
and one non-`Scanning` state (`FinishedWithError`). -/
theorem claim_c5_witness :
    cancel_scan (State.Scanning ScanningLiveInfo.new) =
      (some ScanningLiveInfo.new, State.Cancelled) ∧
    cancel_scan State.Inactive = (none, State.Inactive) ∧
    cancel_scan (State.FinishedWithError "disk error") =
      (none, State.FinishedWithError "disk error") :=
  ⟨claim_c5_cancel_scan.1 ScanningLiveInfo.new,
   claim_c5_cancel_scan.2.1,
   claim_c5_cancel_scan.2.2 _ (fun _sli h => State.noConfusion h)⟩

/-- C6: at `PASSIVE_LEVEL`, appending one process-creation event to the
fresh kernel queue and draining it via `extract_all` yields a batch whose
`process_creations` list is exactly that one event; after the drain the
empty flag reads true, and an immediate second drain returns `None`. -/
theorem claim_c6_queue_round_trip :
    ∀ e : ProcessStarted, ∃ q2 : DriverMessagesWithMutex,
      extract_all PASSIVE_LEVEL
          (add_process_creation_to_queue PASSIVE_LEVEL DriverMessagesWithMutex.new e) =
        (some { messages := [], process_creations := [e], process_terminations := [] },
         q2) ∧
      q2.is_empty = true ∧
      (extract_all PASSIVE_LEVEL q2).1 = none := by
  intro e
  refine ⟨{ is_empty := true, data := DriverMessages.default }, ?_, rfl, rfl⟩
  rfl

/-- C7: inserting a `ProcessStarted` whose pid is untracked succeeds; a
second insert with the same pid (any image name) fails with `DuplicatePid`,
returns the table unchanged, and the stored entry keeps the first event's
fields. -/
theorem claim_c7_duplicate_pid :
    ∀ (m : ProcessMonitor) (e e2 : ProcessStarted),
      lookup_pid m e.pid = none → e2.pid = e.pid →
      ∃ m1, ProcessMonitor.insert m e = (m1, none) ∧
        ProcessMonitor.insert m1 e2 = (m1, some ProcessErrors.DuplicatePid) ∧
        lookup_pid m1 e.pid = some (processFromEvent e) := by
  intro m e e2 h1 h2
  refine ⟨{ processes := (e.pid, processFromEvent e) :: m.processes }, ?_, ?_, ?_⟩
  · simp [ProcessMonitor.insert, h1]
  · simp [ProcessMonitor.insert, lookup_pid, List.find?, h2]
  · simp [lookup_pid, List.find?]

/-- Witness for C7: pid 1234 inserted into the empty table, then rejected on
a second insert with a different image name. -/
theorem claim_c7_witness :
    ∃ m1,
      ProcessMonitor.insert { processes := [] }
          { image_name := "notepad.exe", command_line := "notepad.exe doc.txt",
            parent_pid := 4, pid := 1234 } = (m1, none) ∧
      ProcessMonitor.insert m1
          { image_name := "evil.exe", command_line := "", parent_pid := 7,
            pid := 1234 } = (m1, some ProcessErrors.DuplicatePid) ∧
      lookup_pid m1 1234 = some (processFromEvent
          { image_name := "notepad.exe", command_line := "notepad.exe doc.txt",
            parent_pid := 4, pid := 1234 }) :=
  claim_c7_duplicate_pid { processes := [] }
    { image_name := "notepad.exe", command_line := "notepad.exe doc.txt",
      parent_pid := 4, pid := 1234 }
    { image_name := "evil.exe", command_line := "", parent_pid := 7, pid := 1234 }
    rfl rfl

/-- C8: in each polling-loop iteration that receives a batch, all
terminations are applied before any creation is inserted: the loop body
equals removing every terminated pid and then inserting every creation,
and consequently a batch that terminates and re-creates the same pid leaves
the new event's data in the table. -/
theorem claim_c8_terminations_before_creations :
    (∀ (m : ProcessMonitor) (b : DriverMessages),
      core_process_batch m b =
        apply_creations (apply_terminations m b.process_terminations)
          b.process_creations) ∧
    ∀ (m : ProcessMonitor) (e : ProcessStarted),
      lookup_pid
        (core_process_batch m
          { messages := [], process_creations := [e],
            process_terminations := [{ pid := e.pid }] }) e.pid =
        some (processFromEvent e) := by
  constructor
  · intro m b
    simp only [core_process_batch, apply_creations, apply_terminations]
    cases ht : b.process_terminations with
    | nil =>
      cases hc : b.process_creations with
      | nil => simp
      | cons x xs => simp
    | cons t ts =>
      cases hc : b.process_creations with
      | nil => simp
      | cons x xs => simp
  · intro m e
    simp only [core_process_batch, List.isEmpty, List.foldl]
    have hnone : lookup_pid (remove_process m e.pid) e.pid = none := by
      simp only [lookup_pid, remove_process]
      rw [List.find?_eq_none.mpr]
      · rfl
      · intro kv hkv
        have := (List.mem_filter.mp hkv).2
        simp only [decide_not] at this
        simpa using this
    have hcond : (lookup_pid (remove_process m e.pid) e.pid).isSome = false := by
      rw [hnone]; rfl
    simp only [ProcessMonitor.insert, hcond, Bool.false_eq_true, if_false]
    simp [lookup_pid, List.find?]

/-- C9 counterexample: the polling loop's sleep is not 500 ms — one concrete
iteration sleeps a different duration. -/
theorem claim_c9_counterexample :
    ¬ ((core_iteration { processes := [] } none).2 = 500) := by decide

/-- C9 (amended): after each poll the core loop sleeps for the fixed
interval `driver_poll_rate = 50` milliseconds, and the loop repeats
indefinitely (the state before every iteration index is defined and each
step is one `core_iteration`). -/
theorem claim_c9_poll_rate :
    driver_poll_rate = 50 ∧
    (∀ (m : ProcessMonitor) (r : Option DriverMessages),
      (core_iteration m r).2 = driver_poll_rate) ∧
    (∀ (responses : Nat → Option DriverMessages) (m0 : ProcessMonitor) (n : Nat),
      core_run responses m0 (n + 1) =
        (core_iteration (core_run responses m0 n) (responses n)).1) := by
  refine ⟨rfl, ?_, ?_⟩
  · intro m r
    cases r with
    | some b => rfl
    | none => rfl
  · intro responses m0 n
    rfl

/-- C4: when `is_scanning()` reports true, the engine's scan entry point
answers the request with the `Scanning` state, leaves the scanner state
untouched, and performs no traversal (the trace of hashed files is empty,
so no second `ScanningLiveInfo` is produced). -/
theorem claim_c4_single_flight :
    ∀ (iocs : List String) (s : State) (target : FsTree),
      is_scanning s = true →
      scanner_start_scan iocs s target = some (FileScannerState.Scanning, s, []) := by
  intro iocs s target h
  simp [scanner_start_scan, h]

/-- Witness for C4: a scanner already in `Scanning` answers a second request
without scanning. -/
theorem claim_c4_witness :
    scanner_start_scan [] (State.Scanning ScanningLiveInfo.new) (FsTree.dir true []) =
      some (FileScannerState.Scanning, State.Scanning ScanningLiveInfo.new, []) :=
  claim_c4_single_flight [] (State.Scanning ScanningLiveInfo.new) (FsTree.dir true []) rfl

/-- C2 counterexample: on a directory tree whose only entry is an unreadable
subdirectory, `begin_scan` skips the subdirectory and continues — but then
panics on the empty timing map instead of returning normally, refuting the
claim's "for every directory tree ... returning normally". -/
theorem claim_c2_counterexample :
    begin_scan false [] (FsTree.dir true [FsTree.dir false []]) =
      ScanOutcome.panicked := by
  obtain ⟨L, res2, hmem, heq⟩ := begin_scan_traced_dir [] true [FsTree.dir false []]
  have hL : L = [] := by
    rw [List.eq_nil_iff_forall_not_mem]
    intro x hx
    have hr := (hmem x).mp hx
    simp only [reachableFiles_dir_readable] at hr
    simp [reachableList] at hr
  subst hL
  simp [begin_scan, heq]

/-- C2 (amended): for every directory tree, `begin_scan` hashes exactly the
regular files reachable through readable subdirectories, at any nesting
depth, skipping unreadable subdirectories without aborting; provided the
traversal reached at least one file it returns normally with a `Finished`
state (otherwise it panics on the empty timing map — see C10). -/
theorem claim_c2_traversal :
    ∀ (iocs : List String) (rd : Bool) (es : List FsTree),
      (∀ x, x ∈ (begin_scan_traced false iocs (FsTree.dir rd es)).2 ↔
        x ∈ reachableFiles (FsTree.dir rd es)) ∧
      (reachableFiles (FsTree.dir rd es) ≠ [] →
        ∃ sli, begin_scan false iocs (FsTree.dir rd es) =
          ScanOutcome.ok (State.Finished sli)) := by
  intro iocs rd es
  obtain ⟨L, res2, hmem, heq⟩ := begin_scan_traced_dir iocs rd es
  constructor
  · intro x
    rw [heq]
    exact hmem x
  · intro hne
    have hLne : L ≠ [] := by
      intro h0
      subst h0
      apply hne
      rw [List.eq_nil_iff_forall_not_mem]
      intro x hx
      have := (hmem x).mpr hx
      simp at this
    have hlen : ¬ (L.length = 0) := by
      simpa [List.length_eq_zero] using hLne
    refine ⟨{ num_files_scanned := 0, time_taken := 0, scan_results := res2 }, ?_⟩
    simp [begin_scan, heq, hlen]

/-- Witness for C2: one readable directory holding one file whose digest is
on the IOC list; the trace equals the reachable set and the scan finishes. -/
theorem claim_c2_witness :
    (∀ x, x ∈ (begin_scan_traced false ["AB12"]
        (FsTree.dir true [FsTree.file "C:/a.bin" "AB12"])).2 ↔
      x ∈ reachableFiles (FsTree.dir true [FsTree.file "C:/a.bin" "AB12"])) ∧
    ∃ sli, begin_scan false ["AB12"] (FsTree.dir true [FsTree.file "C:/a.bin" "AB12"]) =
      ScanOutcome.ok (State.Finished sli) :=
  ⟨(claim_c2_traversal ["AB12"] true [FsTree.file "C:/a.bin" "AB12"]).1,
   (claim_c2_traversal ["AB12"] true [FsTree.file "C:/a.bin" "AB12"]).2
     (by simp [reachableList])⟩

/-- C10: a directory scan whose traversal hashed no regular file at all
(empty trace) panics computing min/max of the empty timing map; a scan that
hashed at least one file returns normally with a `Finished` state. -/
theorem claim_c10_empty_traversal_panics :
    ∀ (iocs : List String) (rd : Bool) (es : List FsTree),
      ((begin_scan_traced false iocs (FsTree.dir rd es)).2 = [] →
        begin_scan false iocs (FsTree.dir rd es) = ScanOutcome.panicked) ∧
      ((begin_scan_traced false iocs (FsTree.dir rd es)).2 ≠ [] →
        ∃ sli, begin_scan false iocs (FsTree.dir rd es) =
          ScanOutcome.ok (State.Finished sli)) := by
  intro iocs rd es
  obtain ⟨L, res2, hmem, heq⟩ := begin_scan_traced_dir iocs rd es
  have htr : (begin_scan_traced false iocs (FsTree.dir rd es)).2 = L := by
    rw [heq]
  constructor
  · intro h0
    rw [htr] at h0
    subst h0
    simp [begin_scan, heq]
  · intro hne
    rw [htr] at hne
    have hlen : ¬ (L.length = 0) := by
      simpa [List.length_eq_zero] using hne
    refine ⟨{ num_files_scanned := 0, time_taken := 0, scan_results := res2 }, ?_⟩
    simp [begin_scan, heq, hlen]

/-- Witness for C10: the scan of an empty readable directory panics, and the
scan of a directory holding one file finishes. -/
theorem claim_c10_witness :
    begin_scan false [] (FsTree.dir true []) = ScanOutcome.panicked ∧
    ∃ sli, begin_scan false [] (FsTree.dir true [FsTree.file "C:/x" "00"]) =
      ScanOutcome.ok (State.Finished sli) := by
  constructor
  · apply (claim_c10_empty_traversal_panics [] true []).1
    obtain ⟨L, res2, hmem, heq⟩ := begin_scan_traced_dir [] true []
    rw [heq]
    rw [List.eq_nil_iff_forall_not_mem]
    intro x hx
    have := (hmem x).mp hx
    simp [reachableList] at this
  · apply (claim_c10_empty_traversal_panics [] true [FsTree.file "C:/x" "00"]).2
    obtain ⟨L, res2, hmem, heq⟩ := begin_scan_traced_dir [] true [FsTree.file "C:/x" "00"]
    rw [heq]
    intro h0
    simp only [Prod.snd] at h0
    have := (hmem ("C:/x", "00")).mpr (by simp [reachableList])
    rw [h0] at this
    simp at this

/-- C1: the IOCTL dispatcher's `SANC_IOCTL_DRIVER_GET_MESSAGES` arm returns
`STATUS_SUCCESS` without writing the output buffer and without touching the
cache (the handler call is commented out in the source), even though the
implemented handler `ioctl_handler_send_kernel_msgs_to_userland`, run on the
same non-empty cache, would return the cache's JSON bytes and clear it. -/
theorem claim_c1_get_messages_noop :
    ∀ (ser : DriverMessages → List Nat) (irql : Nat) (input : IoctlInput)
      (ks : KernelState),
      handle_ioctl ser SANC_IOCTL_DRIVER_GET_MESSAGES irql input ks =
        { status := STATUS_SUCCESS, output := none, ks := ks } ∧
      (ks.cache.is_empty = false →
        ioctl_handler_send_kernel_msgs_to_userland ser PASSIVE_LEVEL ks =
          (Except.ok (IoctlOutput.bytes (ser ks.cache.data)),
           { ks with cache := { is_empty := true, data := DriverMessages.default } })) := by
  intro ser irql input ks
  constructor
  · simp only [handle_ioctl]
    rw [if_neg (by decide), if_neg (by decide), if_neg (by decide),
        if_neg (by decide)]
    simp
  · intro hne
    simp [ioctl_handler_send_kernel_msgs_to_userland, extract_all,
          PASSIVE_LEVEL, APC_LEVEL, hne]

/-- Witness for C1: a concrete serializer and a cache holding one drained
diagnostic message. -/
theorem claim_c1_witness :
    handle_ioctl (fun d => [d.messages.length]) SANC_IOCTL_DRIVER_GET_MESSAGES 0
        IoctlInput.emptyBuf
        { queue := DriverMessagesWithMutex.new,
          cache := { is_empty := false,
                     data := { messages := ["boot"], process_creations := [],
                               process_terminations := [] } } } =
      { status := STATUS_SUCCESS, output := none,
        ks := { queue := DriverMessagesWithMutex.new,
                cache := { is_empty := false,
                           data := { messages := ["boot"], process_creations := [],
                                     process_terminations := [] } } } } ∧
    ioctl_handler_send_kernel_msgs_to_userland (fun d => [d.messages.length])
        PASSIVE_LEVEL
        { queue := DriverMessagesWithMutex.new,
          cache := { is_empty := false,
                     data := { messages := ["boot"], process_creations := [],
                               process_terminations := [] } } } =
      (Except.ok (IoctlOutput.bytes [1]),
       { queue := DriverMessagesWithMutex.new,
         cache := { is_empty := true, data := DriverMessages.default } }) :=
  ⟨(claim_c1_get_messages_noop (fun d => [d.messages.length]) 0 IoctlInput.emptyBuf
      { queue := DriverMessagesWithMutex.new,
        cache := { is_empty := false,
                   data := { messages := ["boot"], process_creations := [],
                             process_terminations := [] } } }).1,
   (claim_c1_get_messages_noop (fun d => [d.messages.length]) 0 IoctlInput.emptyBuf
      { queue := DriverMessagesWithMutex.new,
        cache := { is_empty := false,
                   data := { messages := ["boot"], process_creations := [],
                             process_terminations := [] } } }).2 rfl⟩

end Sanctum
